import Mathlib

/-!
Verification of the ExpenseReport tabular transform-and-template-fill pipeline.

The definitions below are a shallow embedding of the Python source
(`main.py`, `forecastTemplate.py`, `salesReport.py`, `userReport.py`):
tables are lists of structure rows, pandas column operations become list
operations, missing values (NaN / None) are `Option`, and dates are a
concrete `Date` structure with Gregorian month lengths.
-/

namespace ExpenseReport

/-! ## Basic list utilities shared by the embedding

`uniqueFirst` is pandas `Series.unique()`: distinct values in order of
first appearance.  It is written with an accumulator of already seen
values so that it is structurally recursive and kernel-computable. -/

def uniqueFirstAux (seen : List String) : List String → List String
  | [] => []
  | a :: l => if a ∈ seen then uniqueFirstAux seen l else a :: uniqueFirstAux (a :: seen) l

def uniqueFirst (l : List String) : List String := uniqueFirstAux [] l

theorem mem_uniqueFirstAux (a : String) (l : List String) :
    ∀ seen, a ∈ uniqueFirstAux seen l ↔ a ∈ l ∧ a ∉ seen := by
  induction l with
  | nil => intro seen; simp [uniqueFirstAux]
  | cons b l ih =>
    intro seen
    by_cases hb : b ∈ seen
    · rw [uniqueFirstAux, if_pos hb, ih]
      constructor
      · rintro ⟨h1, h2⟩; exact ⟨List.mem_cons_of_mem _ h1, h2⟩
      · rintro ⟨h1, h2⟩
        rcases List.mem_cons.mp h1 with rfl | h1
        · exact absurd hb h2
        · exact ⟨h1, h2⟩
    · rw [uniqueFirstAux, if_neg hb]
      constructor
      · intro h
        rcases List.mem_cons.mp h with rfl | h
        · exact ⟨List.mem_cons_self _ _, hb⟩
        · rcases (ih _).mp h with ⟨h1, h2⟩
          refine ⟨List.mem_cons_of_mem _ h1, fun hs => h2 (List.mem_cons_of_mem _ hs)⟩
      · rintro ⟨h1, h2⟩
        rcases List.mem_cons.mp h1 with rfl | h1
        · exact List.mem_cons_self _ _
        · by_cases hab : a = b
          · subst hab; exact List.mem_cons_self _ _
          · exact List.mem_cons_of_mem _ ((ih _).mpr ⟨h1, by
              intro hs
              rcases List.mem_cons.mp hs with h | h
              · exact hab h
              · exact h2 h⟩)

theorem mem_uniqueFirst (a : String) (l : List String) : a ∈ uniqueFirst l ↔ a ∈ l := by
  rw [uniqueFirst, mem_uniqueFirstAux]; simp

theorem nodup_uniqueFirstAux (l : List String) : ∀ seen, (uniqueFirstAux seen l).Nodup := by
  induction l with
  | nil => intro seen; simp [uniqueFirstAux]
  | cons b l ih =>
    intro seen
    by_cases hb : b ∈ seen
    · rw [uniqueFirstAux, if_pos hb]; exact ih seen
    · rw [uniqueFirstAux, if_neg hb]
      refine List.nodup_cons.mpr ⟨?_, ih _⟩
      intro hmem
      exact ((mem_uniqueFirstAux b l _).mp hmem).2 (List.mem_cons_self _ _)

theorem nodup_uniqueFirst (l : List String) : (uniqueFirst l).Nodup :=
  nodup_uniqueFirstAux l []

/-! ## Dates and the month-end period key

`forecastTemplate.py` lines 135-137 and 155-157 normalise the `periodo`
(resp. `period`) column with
`pd.to_datetime(...).dt.to_period('M').dt.end_time`, i.e. each parsed
date is mapped to the last calendar day of its month.  We embed calendar
dates concretely with the Gregorian month-length rules that the pandas
period arithmetic implements. -/

structure Date where
  year : Nat
  month : Nat
  day : Nat
deriving DecidableEq

def isLeapYear (y : Nat) : Bool :=
  y % 4 == 0 && (y % 100 != 0 || y % 400 == 0)

def daysInMonth (y m : Nat) : Nat :=
  if m == 2 then (if isLeapYear y then 29 else 28)
  else if m == 4 || m == 6 || m == 9 || m == 11 then 30
  else 31

def Date.Valid (d : Date) : Prop :=
  1 ≤ d.month ∧ d.month ≤ 12 ∧ 1 ≤ d.day ∧ d.day ≤ daysInMonth d.year d.month

instance (d : Date) : Decidable d.Valid := by
  unfold Date.Valid; infer_instance

def monthEnd (d : Date) : Date :=
  ⟨d.year, d.month, daysInMonth d.year d.month⟩

theorem one_le_daysInMonth (y m : Nat) : 1 ≤ daysInMonth y m := by
  unfold daysInMonth
  repeat' split
  all_goals omega

/-! ## Database rows of the forecast generator

`template_forecast_generator` loads two tables.  The expense table is
read with the columns of `initial_columns_from_db_expenses`
(six identifier columns, `mainOwner`, `subOwner`, `periodo`, `saldoPEN`)
and the headcount table with `initial_columns_from_db_headcount`.
Database nulls are `Option.none`; `periodo` is `Option Date` (a `none`
is an unparseable / missing date). -/

structure ExpenseDbRow where
  company : Option String
  linePL : Option String
  centroCosto : Option String
  description : Option String
  cuentaContable : Option String
  descripCuentaContable : Option String
  mainOwner : Option String
  subOwner : Option String
  periodo : Option Date
  saldoPEN : Option Int
deriving DecidableEq

structure HeadcountDbRow where
  company : Option String
  period : Option Date
  nameID : Option String
  centroCosto : Option String
  jobGeneral : Option String
  description : Option String
  mainOwner : Option String
  subOwner : Option String
deriving DecidableEq

/-- `forecastTemplate.py` lines 135-136: the `periodo` column of the
expense table is replaced by the end of its month
(`.dt.to_period('M').dt.end_time`). -/
def normalizeExpensePeriodo (rows : List ExpenseDbRow) : List ExpenseDbRow :=
  rows.map fun r => { r with periodo := r.periodo.map monthEnd }

/-- `forecastTemplate.py` lines 155-156: same month-end normalisation for
the `period` column of the headcount table. -/
def normalizeHeadcountPeriod (rows : List HeadcountDbRow) : List HeadcountDbRow :=
  rows.map fun r => { r with period := r.period.map monthEnd }

/-- Claim C1: for every input row whose date value parses, the derived
period key equals the last calendar day of that row's original date's
month; this holds for the expense `periodo` column and the headcount
`period` column. -/
theorem periodKey_is_month_end (rows : List ExpenseDbRow) (hrows : List HeadcountDbRow)
    (i : Nat) (d : Date) :
    ((rows.get? i).bind ExpenseDbRow.periodo = some d →
      ((normalizeExpensePeriodo rows).get? i).bind ExpenseDbRow.periodo = some (monthEnd d))
  ∧ ((hrows.get? i).bind HeadcountDbRow.period = some d →
      ((normalizeHeadcountPeriod hrows).get? i).bind HeadcountDbRow.period = some (monthEnd d))
  ∧ (d.Valid →
      (monthEnd d).year = d.year ∧ (monthEnd d).month = d.month ∧ (monthEnd d).Valid ∧
      ∀ e : Date, e.Valid → e.year = d.year → e.month = d.month → e.day ≤ (monthEnd d).day) := by
  refine ⟨?_, ?_, ?_⟩
  · intro h
    rw [normalizeExpensePeriodo]
    cases hr : rows.get? i with
    | none => rw [hr] at h; simp at h
    | some r =>
      rw [hr] at h
      simp only [Option.some_bind] at h
      rw [List.get?_map, hr]
      simp [h]
  · intro h
    rw [normalizeHeadcountPeriod]
    cases hr : hrows.get? i with
    | none => rw [hr] at h; simp at h
    | some r =>
      rw [hr] at h
      simp only [Option.some_bind] at h
      rw [List.get?_map, hr]
      simp [h]
  · rintro ⟨h1, h2, _, _⟩
    refine ⟨rfl, rfl, ⟨h1, h2, one_le_daysInMonth _ _, Nat.le_refl _⟩, ?_⟩
    rintro e ⟨_, _, _, he⟩ hy hm
    rw [monthEnd]
    rw [hy, hm] at he
    exact he

/-- Witness for C1 at the spec's own example: the expense row dated
2023-11-07 is normalised to period key 2023-11-30, which is a valid date
and the last day of November 2023. -/
theorem periodKey_is_month_end_witness :
    ((normalizeExpensePeriodo
        [⟨some "FLX", some "G&A", some "CC1", some "desc", some "630101", some "rent",
          some "ownerA", some "subA", some ⟨2023, 11, 7⟩, some 100⟩]).get? 0).bind
      ExpenseDbRow.periodo = some ⟨2023, 11, 30⟩
  ∧ (Date.Valid ⟨2023, 11, 30⟩ ∧ (7 : Nat) ≤ 30) := by
  constructor
  · exact (periodKey_is_month_end
      [⟨some "FLX", some "G&A", some "CC1", some "desc", some "630101", some "rent",
        some "ownerA", some "subA", some ⟨2023, 11, 7⟩, some 100⟩] [] 0 ⟨2023, 11, 7⟩).1 rfl
  · refine ⟨?_, ?_⟩
    · exact ((periodKey_is_month_end [] [] 0 ⟨2023, 11, 7⟩).2.2 (by decide)).2.2.1
    · exact ((periodKey_is_month_end [] [] 0 ⟨2023, 11, 7⟩).2.2 (by decide)).2.2.2
        ⟨2023, 11, 7⟩ (by decide) rfl rfl

/-! ## The Key-Splitter (`process_expense_reports`, `main.py`)

`main.py` line 67 discovers the partition keys with
`df['owner'].dropna().unique()` and line 116 builds each subset with
`df[df['owner'] == owner]`.  A `dataRaw` row is embedded as its `owner`
cell plus the remaining cells (kept whole, so the subset operation
visibly leaves row content and column order untouched). -/

structure RawRow where
  owner : Option String
  cells : List (Option String)
deriving DecidableEq

def uniqueOwners (rows : List RawRow) : List String :=
  uniqueFirst (rows.filterMap RawRow.owner)

def ownerSubset (rows : List RawRow) (k : String) : List RawRow :=
  rows.filter fun r => r.owner == some k

theorem sum_map_add_nat {α : Type} (l : List α) (f g : α → Nat) :
    (l.map fun x => f x + g x).sum = (l.map f).sum + (l.map g).sum := by
  induction l with
  | nil => rfl
  | cons a l ih => simp only [List.map_cons, List.sum_cons, ih]; omega

theorem sum_map_zero_nat {α : Type} (l : List α) : (l.map fun _ => (0 : Nat)).sum = 0 := by
  induction l with
  | nil => rfl
  | cons a l ih => simp [ih]

theorem sum_indicator_not_mem (k0 : String) (K : List String) (hk : k0 ∉ K) :
    (K.map fun k => if k0 = k then 1 else 0).sum = 0 := by
  induction K with
  | nil => rfl
  | cons a K ih =>
    simp only [List.map_cons, List.sum_cons]
    have ha : k0 ≠ a := fun h => hk (by rw [h]; exact List.mem_cons_self _ _)
    rw [if_neg ha, ih (fun h => hk (List.mem_cons_of_mem _ h))]

theorem sum_indicator_mem (k0 : String) (K : List String) (hK : K.Nodup) (hk : k0 ∈ K) :
    (K.map fun k => if k0 = k then 1 else 0).sum = 1 := by
  induction K with
  | nil => simp at hk
  | cons a K ih =>
    simp only [List.map_cons, List.sum_cons]
    have hnd := List.nodup_cons.mp hK
    rcases List.mem_cons.mp hk with h | h
    · subst h
      rw [if_pos rfl, sum_indicator_not_mem _ _ hnd.1]
    · have hne : k0 ≠ a := fun he => hnd.1 (he ▸ h)
      rw [if_neg hne, ih hnd.2 h]

theorem sum_split_lengths {α : Type} (key : α → Option String) (K : List String)
    (hK : K.Nodup) (rows : List α)
    (hcov : ∀ r ∈ rows, ∀ k, key r = some k → k ∈ K) :
    (K.map fun k => (rows.filter fun r => key r == some k).length).sum
      = (rows.filter fun r => (key r).isSome).length := by
  induction rows with
  | nil => simp
  | cons r rows ih =>
    have hcov' : ∀ r ∈ rows, ∀ k, key r = some k → k ∈ K :=
      fun r hr => hcov r (List.mem_cons_of_mem _ hr)
    have hstep : ∀ k : String,
        ((r :: rows).filter fun x => key x == some k).length
          = (if key r = some k then 1 else 0) + (rows.filter fun x => key x == some k).length := by
      intro k
      by_cases h : key r = some k
      · simp [List.filter_cons, h] <;> omega
      · simp [List.filter_cons, h]
    calc (K.map fun k => ((r :: rows).filter fun x => key x == some k).length).sum
        = (K.map fun k =>
            (if key r = some k then 1 else 0) + (rows.filter fun x => key x == some k).length).sum := by
          congr 1; exact List.map_congr_left fun k _ => hstep k
      _ = (K.map fun k => if key r = some k then 1 else 0).sum
            + (K.map fun k => (rows.filter fun x => key x == some k).length).sum :=
          sum_map_add_nat _ _ _
      _ = (if (key r).isSome then 1 else 0)
            + (rows.filter fun x => (key x).isSome).length := by
          rw [ih hcov']
          congr 1
          cases hkr : key r with
          | none =>
            have hz : (K.map fun k => if (none : Option String) = some k then 1 else 0)
                = K.map fun _ => (0 : Nat) :=
              List.map_congr_left fun k _ => by simp
            rw [hz, sum_map_zero_nat]
            simp
          | some k0 =>
            simp only [Option.isSome_some, if_true, Option.some.injEq]
            exact sum_indicator_mem k0 K hK (hcov r (List.mem_cons_self _ _) k0 hkr)
      _ = _ := by
          by_cases h : (key r).isSome
          · simp [List.filter_cons, h] <;> omega
          · simp [List.filter_cons, h]

theorem length_filter_some_add_none (rows : List RawRow) :
    (rows.filter fun r => r.owner.isSome).length
      + (rows.filter fun r => r.owner == none).length = rows.length := by
  induction rows with
  | nil => rfl
  | cons r rows ih =>
    cases hr : r.owner <;> simp [List.filter_cons, hr] <;> omega

/-- Claim C2: the Key-Splitter's subsets are pairwise disjoint, each
subset is a sublist of the source table (row order preserved, rows and
hence column order untouched), null-keyed rows land in no subset, and
the subset sizes sum to the source row count minus the null-keyed rows. -/
theorem keySplitter_partition (rows : List RawRow) :
    (∀ k₁ k₂ r, r ∈ ownerSubset rows k₁ → r ∈ ownerSubset rows k₂ → k₁ = k₂)
  ∧ (∀ k, (ownerSubset rows k).Sublist rows)
  ∧ (∀ k r, r ∈ ownerSubset rows k → r.owner = some k)
  ∧ (∀ r, r.owner = none → ∀ k, r ∉ ownerSubset rows k)
  ∧ ((uniqueOwners rows).map fun k => (ownerSubset rows k).length).sum
      = rows.length - (rows.filter fun r => r.owner == none).length := by
  have hmem : ∀ k r, r ∈ ownerSubset rows k → r.owner = some k := by
    intro k r hr
    have := (List.mem_filter.mp hr).2
    simpa using this
  refine ⟨?_, ?_, hmem, ?_, ?_⟩
  · intro k₁ k₂ r h1 h2
    have e1 := hmem _ _ h1
    have e2 := hmem _ _ h2
    rw [e1] at e2
    exact Option.some.inj e2
  · intro k; exact List.filter_sublist _
  · intro r hnone k hr
    rw [hmem _ _ hr] at hnone
    exact Option.noConfusion hnone
  · have h1 : ((uniqueOwners rows).map fun k => (ownerSubset rows k).length).sum
        = (rows.filter fun r => r.owner.isSome).length := by
      apply sum_split_lengths RawRow.owner _ (nodup_uniqueFirst _)
      intro r hr k hk
      exact (mem_uniqueFirst _ _).mpr (List.mem_filterMap.mpr ⟨r, hr, hk⟩)
    have h2 := length_filter_some_add_none rows
    omega

/-- Witness for C2 on a concrete four-row table with owners
A, B, A, null: subset sizes 2 + 1 sum to 4 - 1, the subset for A is a
sublist, and the concrete row with owner A indeed carries key A. -/
theorem keySplitter_partition_witness :
    (((uniqueOwners
        [⟨some "A", [some "1"]⟩, ⟨some "B", [some "2"]⟩,
         ⟨some "A", [some "3"]⟩, ⟨none, [some "4"]⟩]).map fun k =>
      (ownerSubset
        [⟨some "A", [some "1"]⟩, ⟨some "B", [some "2"]⟩,
         ⟨some "A", [some "3"]⟩, ⟨none, [some "4"]⟩] k).length).sum
      = 4 - 1)
  ∧ (ownerSubset
        [⟨some "A", [some "1"]⟩, ⟨some "B", [some "2"]⟩,
         ⟨some "A", [some "3"]⟩, ⟨none, [some "4"]⟩] "A").Sublist
        [⟨some "A", [some "1"]⟩, ⟨some "B", [some "2"]⟩,
         ⟨some "A", [some "3"]⟩, ⟨none, [some "4"]⟩]
  ∧ (⟨some "A", [some "1"]⟩ : RawRow).owner = some "A" := by
  refine ⟨?_, ?_, ?_⟩
  · have h := (keySplitter_partition
      [⟨some "A", [some "1"]⟩, ⟨some "B", [some "2"]⟩,
       ⟨some "A", [some "3"]⟩, ⟨none, [some "4"]⟩]).2.2.2.2
    rw [h]; decide
  · exact (keySplitter_partition
      [⟨some "A", [some "1"]⟩, ⟨some "B", [some "2"]⟩,
       ⟨some "A", [some "3"]⟩, ⟨none, [some "4"]⟩]).2.1 "A"
  · exact (keySplitter_partition
      [⟨some "A", [some "1"]⟩, ⟨some "B", [some "2"]⟩,
       ⟨some "A", [some "3"]⟩, ⟨none, [some "4"]⟩]).2.2.1 "A" ⟨some "A", [some "1"]⟩
      (by decide)

/-! ## Python string helpers

`pyStripList` is Python `str.strip()` on a character list, `pyLower` is
`str.lower()` (the data here is ASCII), and `pyStr` is `str(...)` applied
to a possibly missing cell value (`str(None)` is the text `"None"`). -/

def pyStripList (l : List Char) : List Char :=
  ((l.dropWhile Char.isWhitespace).reverse.dropWhile Char.isWhitespace).reverse

def pyStrip (s : String) : String := String.mk (pyStripList s.toList)

def pyLower (s : String) : String := String.mk (s.toList.map Char.toLower)

def pyStr : Option String → String
  | none => "None"
  | some s => s

theorem mem_pyStripList {c : Char} {l : List Char} (h : c ∈ pyStripList l) : c ∈ l := by
  unfold pyStripList at h
  rw [List.mem_reverse] at h
  have h1 := ((List.dropWhile_suffix _).sublist).mem h
  rw [List.mem_reverse] at h1
  exact ((List.dropWhile_suffix _).sublist).mem h1

/-! ## Sanitization of key-derived file names

`main.py` line 110:
`"".join([c for c in str(owner) if c.isalnum() or c in (' ', '-', '_')]).replace(' ', '_')`.
`forecastTemplate.py` line 193:
`"".join(c for c in str(subowner) if c.isalnum() or c in [' ', '_', '-']).strip()`. -/

def isAllowedChar (c : Char) : Bool :=
  c.isAlphanum || c == ' ' || c == '-' || c == '_'

def clean_owner_name (owner : String) : String :=
  String.mk ((owner.toList.filter isAllowedChar).map fun c => if c == ' ' then '_' else c)

def sanitized_subowner (s : String) : String :=
  String.mk (pyStripList (s.toList.filter isAllowedChar))

/-- Claim C5 counterexample: the expense-report sanitizer of `main.py`
line 110 does not retain allowed characters unchanged: it maps the
partition value North/East #1 to NorthEast_1, not to the claimed
NorthEast 1 (the space is replaced by an underscore). -/
theorem sanitize_spaces_counterexample :
    clean_owner_name ("North/East #1") = "NorthEast_1"
  ∧ ("NorthEast_1" : String) ≠ "NorthEast 1" := by
  exact ⟨by decide, by decide⟩

/-- Claim C5 amended: both sanitizers drop every character outside the
alphanumeric/space/hyphen/underscore allow-list; the forecast sanitizer
then strips surrounding whitespace, so North/East #1 becomes
NorthEast 1, while the expense-report sanitizer additionally replaces
every space with an underscore, so North/East #1 becomes NorthEast_1. -/
theorem sanitize_characterization (s : String) (c : Char) :
    (c ∈ (clean_owner_name s).toList → isAllowedChar c = true ∧ c ≠ ' ')
  ∧ (c ∈ (sanitized_subowner s).toList → isAllowedChar c = true)
  ∧ clean_owner_name ("North/East #1") = "NorthEast_1"
  ∧ sanitized_subowner ("North/East #1") = "NorthEast 1" := by
  refine ⟨?_, ?_, by decide, by decide⟩
  · intro hc
    have hc' : c ∈ (s.toList.filter isAllowedChar).map fun c => if c == ' ' then '_' else c := hc
    rcases List.mem_map.mp hc' with ⟨b, hb, rfl⟩
    have hba : isAllowedChar b = true := (List.mem_filter.mp hb).2
    by_cases hsp : b == ' '
    · rw [if_pos hsp]
      exact ⟨by decide, by decide⟩
    · rw [if_neg hsp]
      refine ⟨hba, ?_⟩
      intro he
      rw [he] at hsp
      exact hsp rfl
  · intro hc
    have hc' : c ∈ pyStripList (s.toList.filter isAllowedChar) := hc
    exact (List.mem_filter.mp (mem_pyStripList hc')).2

/-- Witness for the amended C5 at a concrete input: the character E of
the sanitized owner NorthEast_1 is allowed and is not a space. -/
theorem sanitize_characterization_witness :
    ((Char.ofNat 69) ∈ (clean_owner_name ("North/East #1")).toList)
  ∧ isAllowedChar (Char.ofNat 69) = true ∧ (Char.ofNat 69) ≠ ' ' := by
  refine ⟨by decide, ?_⟩
  exact (sanitize_characterization ("North/East #1") (Char.ofNat 69)).1 (by decide)

/-! ## The Fuente replacement chain (`salesReport.py` 102-113, `main.py` 529-540)

Pandas `Series.str.replace(old, "", regex=False)` deletes every
left-to-right non-overlapping occurrence of `old`; the code chains seven
such deletions in a fixed order.  `deleteSubFuel` is that deletion on
character lists, with a fuel argument (the input length suffices) so it
is structurally recursive and kernel-computable. -/

def deleteSubFuel (pat : List Char) : Nat → List Char → List Char
  | 0, s => s
  | _ + 1, [] => []
  | fuel + 1, c :: rest =>
    if !pat.isEmpty && pat.isPrefixOf (c :: rest) then
      deleteSubFuel pat fuel ((c :: rest).drop pat.length)
    else
      c :: deleteSubFuel pat fuel rest

def applyRule (pat s : String) : String :=
  String.mk (deleteSubFuel pat.toList s.toList.length s.toList)

/-- The seven deletions of the Fuente cleaning chain, in source order. -/
def fuenteRules : List String :=
  ["INTERFASCE ODOO ", "INTERFACE ODOO ", "N/C", "FAC", "B/V", "#", " "]

def applyRulesInOrder (rules : List String) (s : String) : String :=
  rules.foldl (fun acc pat => applyRule pat acc) s

def cleanFuente (s : String) : String := applyRulesInOrder fuenteRules s

/-- Claim C7 counterexample: the Fuente rules are not order-independent.
On the input INTERFACE ODOO 123 the implemented order yields 123, while
applying the FAC rule first yields INTEREODOO123: the rules are not
disjoint, since FAC occurs inside INTERFACE ODOO. -/
theorem fuente_not_order_independent :
    cleanFuente ("INTERFACE ODOO 123") = "123"
  ∧ applyRulesInOrder
      ["FAC", "INTERFASCE ODOO ", "INTERFACE ODOO ", "N/C", "B/V", "#", " "]
      ("INTERFACE ODOO 123") = "INTEREODOO123"
  ∧ ("123" : String) ≠ "INTEREODOO123" := by
  exact ⟨by decide, by decide, by decide⟩

/-- Claim C7 amended: the Fuente replacement rules are substring
deletions applied in the fixed source order; they are not disjoint (FAC
occurs inside INTERFACE ODOO, so deleting FAC first changes what the
later rule can match) and reordering them can change the result, so only
the implemented fixed order defines the cleaning function. -/
theorem fuente_fixed_order_behaviour :
    cleanFuente ("INTERFACE ODOO 123") = "123"
  ∧ applyRule ("FAC") ("INTERFACE ODOO X") = "INTERE ODOO X"
  ∧ applyRule ("FAC") ("INTERFACE ODOO X") ≠ "INTERFACE ODOO X"
  ∧ cleanFuente ("FAC B/V N/C # INTERFASCE ODOO Y") = "Y" := by
  exact ⟨by decide, by decide, by decide, by decide⟩

/-! ## The cecoOwner sheet filter (`main.py` 150-154)

`df_ceco['mainOwner'].astype(str).str.strip().str.lower() ==
str(owner).strip().lower()` — both sides are stripped of surrounding
whitespace and lowercased before comparison, while the `dataRaw` filter
on line 116 (`ownerSubset` above) compares the owner value exactly. -/

structure CecoRow where
  mainOwner : Option String
  cells : List (Option String)
deriving DecidableEq

def cecoFilter (owner : String) (rows : List CecoRow) : List CecoRow :=
  rows.filter fun r => pyLower (pyStrip (pyStr r.mainOwner)) == pyLower (pyStrip owner)

/-- Claim C10: a cecoOwner row is retained exactly when its mainOwner
equals the owner key after both sides are stripped and lowercased (so
the match is case- and whitespace-insensitive), while the dataRaw filter
of the same artifact is exact equality on the owner column. -/
theorem cecoFilter_insensitive_dataRaw_exact (owner : String) (rows : List CecoRow)
    (rrows : List RawRow) (r : CecoRow) (q : RawRow) :
    (r ∈ cecoFilter owner rows ↔
      r ∈ rows ∧ pyLower (pyStrip (pyStr r.mainOwner)) = pyLower (pyStrip owner))
  ∧ (q ∈ ownerSubset rrows owner ↔ q ∈ rrows ∧ q.owner = some owner)
  ∧ pyLower (pyStrip ("  ALICE ")) = pyLower (pyStrip ("alice"))
  ∧ ("  ALICE " : String) ≠ "alice" := by
  refine ⟨?_, ?_, by decide, by decide⟩
  · rw [cecoFilter, List.mem_filter]
    simp
  · rw [ownerSubset, List.mem_filter]
    simp

/-! ## Formula extension (`main.py` 219-232)

The loop copies the anchor-row formula of each formula column down to
every data row, translating it with openpyxl's
`Translator(original, source).translate_formula(target)` where source
and target share the column, so only row references move.  A formula is
a token list: literal text or an A1-style cell reference whose column
and row parts each carry an absolute ($) flag.  Translation by a row
offset shifts the row of every relative reference and leaves absolute
rows (and all columns, which do not move here) unchanged. -/

inductive FTok where
  | lit (s : String)
  | ref (col : String) (colAbs : Bool) (rowAbs : Bool) (row : Nat)
deriving DecidableEq

def translateTok (rowOff : Nat) : FTok → FTok
  | .lit s => .lit s
  | .ref c ca ra r => .ref c ca ra (if ra then r else r + rowOff)

def translateFormula (rowOff : Nat) (f : List FTok) : List FTok :=
  f.map (translateTok rowOff)

def renderTok : FTok → String
  | .lit s => s
  | .ref c ca ra r =>
      (if ca then "$" else "") ++ c ++ (if ra then "$" else "") ++ toString r

def renderFormula (f : List FTok) : String :=
  String.join (f.map renderTok)

/-- `FTok.lit` tokens and fully absolute references are fixed points of
translation. -/
def isAbsOrLit : FTok → Bool
  | .lit _ => true
  | .ref _ _ ra _ => ra

/-- The loop of `main.py` lines 225-229: for every target row from the
anchor row down to the last data row, write the anchor formula
translated by the offset of the target row from the anchor row. -/
def copyFormulasDown (anchor : List FTok) (startRow lastRow : Nat) :
    List (Nat × List FTok) :=
  (List.range' startRow (lastRow + 1 - startRow)).map fun tr =>
    (tr, translateFormula (tr - startRow) anchor)

/-- Claim C3: the formula written at target row r is the anchor formula
with each relative reference shifted down by the offset of r from the
anchor row, and absolute references unchanged: an all-absolute (or
literal) formula is written verbatim at every row, each relative row
reference moves by exactly the offset, and on the spec's examples the
anchor =C8*2 at row 8 extended over 5 data rows puts =C12*2 at row 12
while the anchor =$A$1*2 stays =$A$1*2 at row 12. -/
theorem formula_extension_translation :
    (∀ off f, (∀ t ∈ f, isAbsOrLit t = true) → translateFormula off f = f)
  ∧ (∀ off c ca r, translateTok off (.ref c ca false r) = .ref c ca false (r + off))
  ∧ (∀ off c ca r, translateTok off (.ref c ca true r) = .ref c ca true r)
  ∧ (∀ anchor startRow lastRow tr, startRow ≤ tr → tr ≤ lastRow →
      (tr, translateFormula (tr - startRow) anchor) ∈ copyFormulasDown anchor startRow lastRow)
  ∧ (List.lookup 12 (copyFormulasDown
      [.lit "=", .ref "C" false false 8, .lit "*2"] 8 12)).map renderFormula
      = some "=C12*2"
  ∧ (List.lookup 12 (copyFormulasDown
      [.lit "=", .ref "A" true true 1, .lit "*2"] 8 12)).map renderFormula
      = some "=$A$1*2" := by
  refine ⟨?_, ?_, ?_, ?_, by decide, by decide⟩
  · intro off f hf
    induction f with
    | nil => rfl
    | cons t f ih =>
      rw [translateFormula, List.map_cons]
      rw [translateFormula] at ih
      rw [ih (fun x hx => hf x (List.mem_cons_of_mem _ hx))]
      congr 1
      have h := hf t (List.mem_cons_self _ _)
      cases t with
      | lit s => rfl
      | ref c ca ra r =>
        rw [isAbsOrLit] at h
        rw [translateTok, if_pos h]
  · intro off c ca r
    simp [translateTok]
  · intro off c ca r
    rw [translateTok, if_pos rfl]
  · intro anchor startRow lastRow tr h1 h2
    rw [copyFormulasDown]
    exact List.mem_map.mpr ⟨tr, List.mem_range'.mpr ⟨tr - startRow, by omega, by omega⟩, rfl⟩

/-- Witness for C3 at concrete inputs: the all-absolute anchor formula
=$A$1*2 is written verbatim when translated by offset 4, and the
concrete membership of row 12 with the shifted formula. -/
theorem formula_extension_translation_witness :
    translateFormula 4 [.lit "=", .ref "A" true true 1, .lit "*2"]
      = [.lit "=", .ref "A" true true 1, .lit "*2"]
  ∧ ((12 : Nat), translateFormula (12 - 8) [FTok.lit "=", .ref "C" false false 8, .lit "*2"])
      ∈ copyFormulasDown [FTok.lit "=", .ref "C" false false 8, .lit "*2"] 8 12 := by
  constructor
  · exact formula_extension_translation.1 4
      [.lit "=", .ref "A" true true 1, .lit "*2"] (by decide)
  · exact formula_extension_translation.2.2.2.1
      [FTok.lit "=", .ref "C" false false 8, .lit "*2"] 8 12 12 (by decide) (by decide)

/-! ## Per-partition failure policy (`main.py` 283-286, `forecastTemplate.py` 281-283)

Both projection loops wrap the body for one partition value in a
try/except whose handler prints a message naming the partition value and
then continues with the next value (`continue` in the forecast loop, the
end of the loop body in the expense loop).  The body is embedded as a
step function that either succeeds or fails with an error text, and the
loop as the map that turns each partition value into its log entry. -/

def partitionLogEntry (step : String → Except String Unit) (o : String) : String :=
  match step o with
  | .ok _ => "processed owner " ++ o
  | .error e => "error processing owner " ++ o ++ ": " ++ e

def projectPartitions (step : String → Except String Unit) (owners : List String) :
    List String :=
  owners.map (partitionLogEntry step)

/-- Claim C8: every partition value is processed — the loop produces one
log entry per partition value, each entry depends only on that value's
own step (so an error on one value never aborts the remaining values),
and a failing value's entry names the failing partition-key value. -/
theorem partition_errors_logged_and_continue (step : String → Except String Unit)
    (owners : List String) (i : Nat) (e : String) :
    (projectPartitions step owners).length = owners.length
  ∧ (i < owners.length →
      (projectPartitions step owners).getD i "" = partitionLogEntry step (owners.getD i ""))
  ∧ (i < owners.length → step (owners.getD i "") = .error e →
      (projectPartitions step owners).getD i ""
        = "error processing owner " ++ owners.getD i "" ++ ": " ++ e) := by
  have hentry : ∀ hi : i < owners.length,
      (projectPartitions step owners).getD i "" = partitionLogEntry step (owners.getD i "") := by
    intro hi
    rw [projectPartitions, List.getD, List.getD, List.get?_map]
    cases ho : owners.get? i with
    | none =>
      rw [List.get?_eq_none] at ho
      omega
    | some o =>
      simp
  refine ⟨List.length_map _ _, hentry, ?_⟩
  intro hi herr
  rw [hentry hi, partitionLogEntry, herr]

/-- Witness for C8: with three owners where the middle step fails, the
loop still produces three entries, the failing owner's entry names it,
and the following owner is still processed. -/
theorem partition_errors_logged_and_continue_witness :
    (projectPartitions
        (fun o => if o == "B" then .error "boom" else .ok ())
        ["A", "B", "C"]).length = 3
  ∧ (projectPartitions
        (fun o => if o == "B" then .error "boom" else .ok ())
        ["A", "B", "C"]).getD 1 "" = "error processing owner B: boom"
  ∧ (projectPartitions
        (fun o => if o == "B" then .error "boom" else .ok ())
        ["A", "B", "C"]).getD 2 "" = "processed owner C" := by
  refine ⟨?_, ?_, ?_⟩
  · exact (partition_errors_logged_and_continue
      (fun o => if o == "B" then .error "boom" else .ok ()) ["A", "B", "C"] 0 "boom").1
  · exact ((partition_errors_logged_and_continue
      (fun o => if o == "B" then .error "boom" else .ok ()) ["A", "B", "C"] 1 "boom").2.2
      (by decide) (by rfl)).trans (by decide)
  · exact ((partition_errors_logged_and_continue
      (fun o => if o == "B" then .error "boom" else .ok ()) ["A", "B", "C"] 2 "boom").2.1
      (by decide)).trans (by decide)

/-! ## The forecast pivot and its partition keys (`forecastTemplate.py`)

Line 130 drops expense rows whose `cuentaContable` (via `astype(str)`,
so a database null prints as nan) starts with 62; lines 135-146 pivot
the remaining rows over the month name of the normalised `periodo`
(`pivot_table` silently drops any row with a null in an index column);
line 171 takes the partition keys from the pivoted expense table only;
lines 224-226 keep, of the canonical month vocabulary, exactly the
month columns present in the pivoted table. -/

def optStr : Option String → String
  | none => "nan"
  | some s => s

def fixedIdentifierColumnsExpenses : List String :=
  ["company", "lineP&L", "centroCosto", "description", "cuentaContable",
   "descriptionCuentaContable"]

def monthNamesOrdered : List String :=
  ["January", "February", "March", "April", "May", "June",
   "July", "August", "September", "October", "November", "December"]

def monthName (m : Nat) : String := monthNamesOrdered.getD (m - 1) ""

def strStartsWith (pat s : String) : Bool :=
  pat.toList.isPrefixOf s.toList

def filteredExpenses (rows : List ExpenseDbRow) : List ExpenseDbRow :=
  rows.filter fun r => !(strStartsWith "62" (optStr r.cuentaContable))

def normExpenses (rows : List ExpenseDbRow) : List ExpenseDbRow :=
  normalizeExpensePeriodo (filteredExpenses rows)

def expensePivotOk (r : ExpenseDbRow) : Bool :=
  r.company.isSome && r.linePL.isSome && r.centroCosto.isSome && r.description.isSome &&
  r.cuentaContable.isSome && r.descripCuentaContable.isSome &&
  r.mainOwner.isSome && r.subOwner.isSome && r.periodo.isSome

def expensePivotRows (rows : List ExpenseDbRow) : List ExpenseDbRow :=
  (normExpenses rows).filter expensePivotOk

def expensePivotMonths (rows : List ExpenseDbRow) : List String :=
  uniqueFirst ((expensePivotRows rows).filterMap fun r =>
    r.periodo.map fun d => monthName d.month)

def existingMonthColumnsExpenses (rows : List ExpenseDbRow) : List String :=
  monthNamesOrdered.filter fun m => decide (m ∈ expensePivotMonths rows)

def finalExpenseColumns (rows : List ExpenseDbRow) : List String :=
  fixedIdentifierColumnsExpenses ++ existingMonthColumnsExpenses rows

/-- A one-row expense table whose only data is in January 2025. -/
def demoJanuaryExpenses : List ExpenseDbRow :=
  [⟨some "FLX", some "G&A", some "CC1", some "rent", some "630101", some "rent expense",
    some "ownerA", some "subA", some ⟨2025, 1, 15⟩, some 100⟩]

/-- Claim C6 counterexample: with source rows only in January, the
February bucket of the canonical vocabulary has no source rows, and the
projected column list omits February entirely instead of containing an
all-zero February column. -/
theorem pivot_month_column_omitted :
    "February" ∈ monthNamesOrdered
  ∧ "February" ∉ expensePivotMonths demoJanuaryExpenses
  ∧ "February" ∉ finalExpenseColumns demoJanuaryExpenses
  ∧ "January" ∈ finalExpenseColumns demoJanuaryExpenses := by
  exact ⟨by decide, by decide, by decide, by decide⟩

/-- Claim C6 amended: in the forecast projection a canonical month
bucket appears among the projected columns exactly when the pivoted
table has that month's value column (i.e. some source row fell in that
month); absent buckets are omitted, not synthesized as zeros, and the
month columns that do appear follow the canonical January-December
order. -/
theorem pivot_month_columns_exactly_present (rows : List ExpenseDbRow) (m : String)
    (hm : m ∈ monthNamesOrdered) :
    (m ∈ finalExpenseColumns rows ↔ m ∈ expensePivotMonths rows)
  ∧ (existingMonthColumnsExpenses rows).Sublist monthNamesOrdered := by
  have hdisj : ∀ x ∈ monthNamesOrdered, x ∉ fixedIdentifierColumnsExpenses := by decide
  constructor
  · rw [finalExpenseColumns, List.mem_append]
    constructor
    · rintro (h | h)
      · exact absurd h (hdisj m hm)
      · have := (List.mem_filter.mp h).2
        exact of_decide_eq_true this
    · intro h
      refine Or.inr (List.mem_filter.mpr ⟨hm, ?_⟩)
      exact decide_eq_true h
  · exact List.filter_sublist _

/-- Witness for the amended C6: January is a projected column of the
January-only demo table because January is a month of its pivot. -/
theorem pivot_month_columns_witness :
    "January" ∈ monthNamesOrdered
  ∧ "January" ∈ finalExpenseColumns demoJanuaryExpenses := by
  refine ⟨by decide, ?_⟩
  exact (pivot_month_columns_exactly_present demoJanuaryExpenses "January"
    (by decide)).1.mpr (by decide)

/-! ## Partition-key discovery of the forecast generator (`forecastTemplate.py` 171, 250-255) -/

def forecastKeys (rows : List ExpenseDbRow) : List String :=
  uniqueFirst ((expensePivotRows rows).filterMap ExpenseDbRow.subOwner)

def headcountPivotOk (r : HeadcountDbRow) : Bool :=
  r.company.isSome && r.centroCosto.isSome && r.description.isSome && r.jobGeneral.isSome &&
  r.mainOwner.isSome && r.subOwner.isSome && r.period.isSome

def headcountPivotRows (hrows : List HeadcountDbRow) : List HeadcountDbRow :=
  (normalizeHeadcountPeriod hrows).filter headcountPivotOk

structure ForecastArtifact where
  key : String
  expenseRows : List ExpenseDbRow
  headcountRows : List HeadcountDbRow
deriving DecidableEq

/-- One output workbook per discovered key: its expense block and (line
250-252) the pivoted headcount rows filtered to the same `subOwner`. -/
def forecastArtifacts (rows : List ExpenseDbRow) (hrows : List HeadcountDbRow) :
    List ForecastArtifact :=
  (forecastKeys rows).map fun k =>
    { key := k
      expenseRows := (expensePivotRows rows).filter fun r => r.subOwner == some k
      headcountRows := (headcountPivotRows hrows).filter fun r => r.subOwner == some k }

/-- Claim C9: the forecast generator discovers its partition keys only
from the pivoted expense table, so a subOwner that appears in no
(62-filtered) expense row is not a key, gets no output workbook, and its
headcount rows are written to no artifact. -/
theorem headcount_only_subowner_never_written (rows : List ExpenseDbRow)
    (hrows : List HeadcountDbRow) (s : String)
    (h : ∀ r ∈ filteredExpenses rows, r.subOwner ≠ some s) :
    s ∉ forecastKeys rows
  ∧ (∀ a ∈ forecastArtifacts rows hrows, a.key ≠ s)
  ∧ (∀ a ∈ forecastArtifacts rows hrows, ∀ hr ∈ a.headcountRows, hr.subOwner ≠ some s) := by
  have hkey : s ∉ forecastKeys rows := by
    intro hs
    have hs' := (mem_uniqueFirst _ _).mp hs
    rcases List.mem_filterMap.mp hs' with ⟨r, hr, hsub⟩
    have hr' : r ∈ normExpenses rows := (List.mem_filter.mp hr).1
    rw [normExpenses, normalizeExpensePeriodo] at hr'
    rcases List.mem_map.mp hr' with ⟨r0, hr0, rfl⟩
    exact h r0 hr0 hsub
  have hmemkey : ∀ a ∈ forecastArtifacts rows hrows, a.key ∈ forecastKeys rows := by
    intro a ha
    rcases List.mem_map.mp ha with ⟨k, hk, rfl⟩
    exact hk
  refine ⟨hkey, ?_, ?_⟩
  · intro a ha he
    exact hkey (he ▸ hmemkey a ha)
  · intro a ha hr hhr hsub
    rcases List.mem_map.mp ha with ⟨k, hk, rfl⟩
    have := (List.mem_filter.mp hhr).2
    have hk' : hr.subOwner = some k := by simpa using this
    rw [hk'] at hsub
    have : k = s := Option.some.inj hsub
    exact hkey (this ▸ hk)

/-- A one-row headcount table whose only subOwner is Z, a value absent
from the demo expense table. -/
def demoHeadcountZ : List HeadcountDbRow :=
  [⟨some "FLX", some ⟨2025, 1, 31⟩, some "emp1", some "CC1", some "analyst", some "desc",
    some "ownerA", some "Z"⟩]

/-- Witness for C9: subOwner Z occurs in the headcount demo table but in
no expense row, and indeed Z is not a discovered partition key and no
artifact carries it. -/
theorem headcount_only_subowner_witness :
    (∀ r ∈ filteredExpenses demoJanuaryExpenses, r.subOwner ≠ some "Z")
  ∧ "Z" ∉ forecastKeys demoJanuaryExpenses
  ∧ (∀ a ∈ forecastArtifacts demoJanuaryExpenses demoHeadcountZ, a.key ≠ "Z") := by
  refine ⟨by decide, ?_, ?_⟩
  · exact (headcount_only_subowner_never_written demoJanuaryExpenses demoHeadcountZ "Z"
      (by decide)).1
  · exact (headcount_only_subowner_never_written demoJanuaryExpenses demoHeadcountZ "Z"
      (by decide)).2.1

/-! ## The client-status Summary aggregate (`userReport.py` 215-274)

The summary groups `df_clients_by_status` by the categorical `Empresa`,
the plain `Equipoventa` and the categorical `Estado Servicio`, counting
distinct `Cliente` (pandas `nunique`, which ignores nulls).  With
categorical groupers pandas enumerates the full cross product of the
category levels (zero where a combination has no rows); `unstack` makes
one wide row per (Empresa, Equipoventa) with one count column per
estado.  Category levels follow the explicit priority list restricted to
the observed values, then the remaining observed values sorted; the
`Equipoventa` levels are the observed values sorted.  Lines 257-269 then
drop every wide row whose counts sum to zero and append a Grand Total
row that is the column-wise sum of the retained rows. -/

structure ClientRow where
  empresa : String
  equipo : String
  estado : String
  cliente : Option String
deriving DecidableEq

def desiredEmpresaOrder : List String := ["FLXTECH", "NXT", "FLX"]

def desiredEstadoOrder : List String :=
  ["Activo", "Suspendido", "Instalacion", "Baja", "Baja Adm"]

def strListLe : List Char → List Char → Bool
  | [], _ => true
  | _ :: _, [] => false
  | a :: as, b :: bs => if a = b then strListLe as bs else decide (a.toNat < b.toNat)

def strLe (a b : String) : Bool := strListLe a.toList b.toList

def insertStr (a : String) : List String → List String
  | [] => [a]
  | b :: l => if strLe a b then a :: b :: l else b :: insertStr a l

def sortStrings : List String → List String
  | [] => []
  | a :: l => insertStr a (sortStrings l)

def catOrder (desired : List String) (values : List String) : List String :=
  desired.filter (fun v => decide (v ∈ values)) ++
    sortStrings (values.filter fun v => decide (v ∉ desired))

def empresaCats (rows : List ClientRow) : List String :=
  catOrder desiredEmpresaOrder (uniqueFirst (rows.map ClientRow.empresa))

def estadoCats (rows : List ClientRow) : List String :=
  catOrder desiredEstadoOrder (uniqueFirst (rows.map ClientRow.estado))

def equipoLevels (rows : List ClientRow) : List String :=
  sortStrings (uniqueFirst (rows.map ClientRow.equipo))

/-- `["Cliente"].nunique()` for one (Empresa, Equipoventa, Estado) group:
the number of distinct non-null clients among its rows. -/
def nuniqueClientes (rows : List ClientRow) (e q es : String) : Nat :=
  (uniqueFirst ((rows.filter fun r =>
    r.empresa == e && r.equipo == q && r.estado == es).filterMap ClientRow.cliente)).length

def summaryWideRows (rows : List ClientRow) : List ((String × String) × List Nat) :=
  (empresaCats rows).flatMap fun e =>
    (equipoLevels rows).map fun q =>
      ((e, q), (estadoCats rows).map fun es => nuniqueClientes rows e q es)

def retainedSummaryRows (rows : List ClientRow) : List ((String × String) × List Nat) :=
  (summaryWideRows rows).filter fun p => decide (0 < p.2.sum)

def colwiseSum (n : Nat) (vs : List (List Nat)) : List Nat :=
  vs.foldl (fun acc v => acc.zipWith (· + ·) v) (List.replicate n 0)

def grandTotalRow (rows : List ClientRow) : List Nat :=
  colwiseSum (estadoCats rows).length ((retainedSummaryRows rows).map Prod.snd)

def summaryTable (rows : List ClientRow) : List ((String × String) × List Nat) :=
  retainedSummaryRows rows ++ [(("Grand Total", ""), grandTotalRow rows)]

/-- Claim C4: after counting distinct clients per group over the estado
vocabulary, every wide row whose counts are all zero is dropped before
totaling, every retained row has a nonzero count, and the final table
ends with the Grand Total row equal to the column-wise sum of exactly
the retained rows. -/
theorem summary_drops_zero_rows_and_totals (rows : List ClientRow) :
    (∀ p, p ∈ summaryWideRows rows → p.2.sum = 0 → p ∉ retainedSummaryRows rows)
  ∧ (∀ p, p ∈ retainedSummaryRows rows → 0 < p.2.sum)
  ∧ (summaryTable rows).getLast? =
      some (("Grand Total", ""), colwiseSum (estadoCats rows).length
        ((retainedSummaryRows rows).map Prod.snd)) := by
  refine ⟨?_, ?_, ?_⟩
  · intro p _ hz hp
    have := (List.mem_filter.mp hp).2
    have hpos := of_decide_eq_true this
    omega
  · intro p hp
    exact of_decide_eq_true (List.mem_filter.mp hp).2
  · rw [summaryTable, List.getLast?_concat, grandTotalRow]

/-- The spec's example: groups (A,X,Activo) with three distinct clients,
(A,X,Baja) present but with no countable client, (B,Y,Activo) with two
distinct clients. -/
def demoClientRows : List ClientRow :=
  [⟨"A", "X", "Activo", some "c1"⟩, ⟨"A", "X", "Activo", some "c2"⟩,
   ⟨"A", "X", "Activo", some "c3"⟩, ⟨"A", "X", "Baja", none⟩,
   ⟨"B", "Y", "Activo", some "c4"⟩, ⟨"B", "Y", "Activo", some "c5"⟩]

/-- Witness for C4 at the spec's example: the summary keeps (A,X)=[3,0]
and (B,Y)=[2,0], drops the all-zero cross-product row (A,Y), and the
Grand Total is [5,0] — 5 in the Activo column. -/
theorem summary_drops_zero_rows_witness :
    summaryTable demoClientRows =
      [(("A", "X"), [3, 0]), (("B", "Y"), [2, 0]), (("Grand Total", ""), [5, 0])]
  ∧ estadoCats demoClientRows = ["Activo", "Baja"]
  ∧ (grandTotalRow demoClientRows).getD 0 0 = 5
  ∧ (("A", "Y"), ([0, 0] : List Nat)) ∉ retainedSummaryRows demoClientRows := by
  refine ⟨by decide, by decide, by decide, ?_⟩
  exact (summary_drops_zero_rows_and_totals demoClientRows).1
    ((("A", "Y"), [0, 0])) (by decide) (by decide)

end ExpenseReport
